import Mathlib

/-!
Shallow embedding of the GearX spam-detection core:
`bot/services/spam_detector.py` (SpamDetector), `bot/services/violation_tracker.py`
(ViolationTracker) and the parts of `bot/utils/message_analysis.py` they use.

Modelling conventions:
* instants are integers (seconds); `datetime.utcnow()` becomes an explicit `now`
  argument, and the two `utcnow()` calls inside one `register_message` call are
  identified (they denote the same message event's time);
* `timedelta(seconds=w)` is `w`, `timedelta(minutes=m)` is `60*m`,
  `timedelta(hours=h)` is `3600*h`;
* standard-library black boxes (difflib `SequenceMatcher` similarity, the URL
  regex, unicode normalization) are fields of an `Analyzer` parameter: the
  detector only branches on their boolean/string results;
* Python's `needle in s` and `s.count(needle)` are modelled with
  `String.splitOn` (leftmost non-overlapping occurrences, as in CPython);
* the per-key `deque(maxlen=...)` is a list plus the capacity it was created
  with; mutation becomes explicit state passing on `DetectorState`.
-/

namespace GearX

/-- `pat` occurs as a contiguous run in `l` (the empty pattern always occurs). -/
def occursIn (pat : List Char) : List Char → Bool
  | [] => pat.isEmpty
  | c :: rest => pat.isPrefixOf (c :: rest) || occursIn pat rest

/-- Python `needle in s` (substring test; the empty needle is in every string). -/
def strContains (s pat : String) : Bool :=
  occursIn pat.data s.data

/-- Leftmost non-overlapping occurrence count; `skip` counts characters still
to be consumed by the match found just before. -/
def countOccsAux (pat : List Char) : List Char → Nat → Nat
  | [], _ => 0
  | _ :: rest, skip + 1 => countOccsAux pat rest skip
  | c :: rest, 0 =>
    if pat.isPrefixOf (c :: rest) then countOccsAux pat rest (pat.length - 1) + 1
    else countOccsAux pat rest 0

/-- Python `s.count(pat)` for a non-empty `pat`: number of leftmost
non-overlapping occurrences. -/
def strCount (s pat : String) : Nat :=
  countOccsAux pat.data s.data 0

/-- Python `s.lower()`, as the character list of `s` (ASCII case folding; the
contents compared here are either ASCII or caseless). -/
def lowerData (s : String) : List Char :=
  s.data.map Char.toLower

/-- The black-box text analyses from `bot/utils/message_analysis.py`:
`normalize_content`, `contains_link` (URL regex) and `is_similar`
(difflib ratio against a threshold). The detector treats them opaquely. -/
structure Analyzer where
  normalize : String → String
  contains_link : String → Bool
  is_similar : String → String → Rat → Bool

/-- `GuildSettings` (`bot/services/config_service.py`), the fields the spam
detector reads. -/
structure GuildSettings where
  enabled : Bool
  spam_limit : Nat
  time_window : Nat
  link_block : Bool
  mention_limit : Nat
  new_user_minutes : Nat
  exception_keywords : List String
deriving DecidableEq, Repr

/-- `SpamActionType` enum. -/
inductive SpamActionType where
  | none
  | warn
  | delete
  | timeout
  | kick
deriving DecidableEq, Repr

/-- `SpamAction` dataclass. -/
structure SpamAction where
  action : SpamActionType
  reason : String
  details : String
  violation_count : Nat
deriving DecidableEq, Repr

/-- `MessageRecord` dataclass. -/
structure MessageRecord where
  timestamp : Int
  content : String
  normalized : String
deriving DecidableEq, Repr

/-- `ViolationRecord` dataclass (`count` is kept as `Nat`: the code only ever
stores `max(0, ...)`-floored values). -/
structure ViolationRecord where
  count : Nat
  last_triggered : Int
  last_decay_check : Int
deriving DecidableEq, Repr

/-- The `discord.Message` fields the detector reads.  `guild = none` models a
message without guild context; `author_is_member = false` models an author that
is not a `discord.Member`. -/
structure Message where
  guild : Option Nat
  author_id : Nat
  author_is_member : Bool
  content : String
  mention_everyone : Bool
  mentions_len : Nat
  role_mentions_len : Nat
  created_at : Int
  joined_at : Option Int
deriving DecidableEq, Repr

/-- The `ViolationTracker._records` map. -/
def VMap := Nat × Nat → Option ViolationRecord

/-- `ViolationTracker._decay_after` for the default construction
`ViolationTracker()` used in `bot/bot.py` (24 hours, in seconds). -/
def decayAfterDefault : Int := 86400

/-- `ViolationTracker.increment`, for decay period `da` at time `now`.
Returns the new count together with the updated record map. -/
def increment (da : Int) (now : Int) (m : VMap) (key : Nat × Nat) : Nat × VMap :=
  let record0 : Option ViolationRecord :=
    match m key with
    | none => none
    | some r =>
      let elapsed := now - r.last_decay_check
      if da ≤ elapsed then
        some { r with count := (max 0 ((r.count : Int) - elapsed.fdiv da)).toNat,
                      last_decay_check := now }
      else some r
  let base : ViolationRecord :=
    match record0 with
    | none => ⟨0, now, now⟩
    | some r => if r.count = 0 then ⟨0, now, now⟩ else r
  let updated : ViolationRecord :=
    { base with count := base.count + 1, last_triggered := now }
  (updated.count, fun k => if k = key then some updated else m k)

/-- `ViolationTracker.reset`. -/
def reset (m : VMap) (gid uid : Nat) : VMap :=
  fun k => if k = (gid, uid) then none else m k

/-- `count_mentions` from `bot/utils/message_analysis.py`. -/
def count_mentions (msg : Message) : Nat :=
  msg.mentions_len + msg.role_mentions_len
    + (if msg.mention_everyone then 1 else 0)
    + strCount msg.content "@everyone" + strCount msg.content "@here"

/-- The mass-mention test of `SpamDetector._detect_violation`:
`message.mention_everyone or "@everyone" in message.content or "@here" in message.content`. -/
def massMentionCond (msg : Message) : Bool :=
  msg.mention_everyone || strContains msg.content "@everyone"
    || strContains msg.content "@here"

def massMentionReason : String := "대량 멘션(@everyone/@here) 사용"
def floodReason : String := "메시지 도배 감지"
def mentionSpamReason : String := "멘션 스팸 감지"
def duplicateReason : String := "동일/유사 메시지 반복"
def aiReason : String := "AI 유사도 스팸 감지"
def newUserReason : String := "신규 계정 보호 정책 위반"

/-- Python `list(history)[-n:]`: the last `n` records, in order. -/
def lastN (n : Nat) (l : List MessageRecord) : List MessageRecord :=
  (l.reverse.take n).reverse

/-- `SpamDetector._has_duplicate_content`. -/
def has_duplicate_content (an : Analyzer) (history : List MessageRecord) : Bool :=
  if history.length < 3 then false
  else
    match (lastN 3 history).getLast? with
    | none => false
    | some base =>
      decide (2 ≤ ((lastN 3 history).dropLast.countP
        (fun r => an.is_similar base.normalized r.normalized (9/10))))

/-- `SpamDetector._has_ai_like_similarity`. -/
def has_ai_like_similarity (an : Analyzer) (history : List MessageRecord) : Bool :=
  if history.length < 4 then false
  else
    match (lastN 4 history).getLast? with
    | none => false
    | some target =>
      decide (2 ≤ ((lastN 4 history).dropLast.countP
        (fun r => an.is_similar target.normalized r.normalized (17/20))))

/-- `SpamDetector._is_ai_exempt`. -/
def is_ai_exempt (content : String) (keywords : List String) : Bool :=
  keywords.any (fun k => occursIn (lowerData k) (lowerData content))

/-- `SpamDetector._action_for_count`. -/
def action_for_count (count : Nat) : SpamActionType :=
  if count ≤ 1 then .warn
  else if count = 2 then .delete
  else if count = 3 then .timeout
  else .kick

/-- `SpamDetector._detect_violation`: the ordered rule chain, returning the
reason (if any) and the forced action (if any). -/
def detect_violation (an : Analyzer) (msg : Message) (history : List MessageRecord)
    (cfg : GuildSettings) (now : Int) : Option String × Option SpamActionType :=
  if !cfg.enabled then (none, none)
  else if massMentionCond msg then (some massMentionReason, some .timeout)
  else if cfg.spam_limit < history.length then (some floodReason, none)
  else
    let has_link := an.contains_link msg.content
    let mentions := count_mentions msg
    if cfg.mention_limit != 0 && decide (cfg.mention_limit ≤ mentions) then
      (some mentionSpamReason, none)
    else if has_duplicate_content an history then (some duplicateReason, none)
    else if !is_ai_exempt msg.content cfg.exception_keywords
              && has_ai_like_similarity an history then
      (some aiReason, none)
    else if msg.author_is_member then
      let account_age := now - msg.created_at
      let join_age :=
        match msg.joined_at with
        | some j => now - j
        | none => account_age
      let min_age : Int := 60 * cfg.new_user_minutes
      let is_new := decide (account_age < min_age) || decide (join_age < min_age)
      if is_new && (has_link || decide (2 ≤ mentions)
                    || decide (cfg.spam_limit ≤ history.length)) then
        (some newUserReason, none)
      else (none, none)
    else (none, none)

/-- A per-key history buffer: a `deque` plus the `maxlen` it was created with. -/
structure HistBuf where
  capacity : Nat
  records : List MessageRecord
deriving DecidableEq, Repr

/-- Appending to a `deque(maxlen=capacity)`: on overflow the oldest records are
evicted from the head. -/
def appendBounded (b : HistBuf) (r : MessageRecord) : HistBuf :=
  let l := b.records ++ [r]
  { b with records := if b.capacity < l.length then l.drop (l.length - b.capacity) else l }

/-- The prune loop of `register_message`:
`while history and now - history[0].timestamp > window: history.popleft()`. -/
def pruneExpired (now window : Int) (l : List MessageRecord) : List MessageRecord :=
  l.dropWhile (fun r => decide (window < now - r.timestamp))

/-- The mutable state of `SpamDetector` plus its `ViolationTracker`. -/
structure DetectorState where
  history : Nat × Nat → Option HistBuf
  tracker : VMap

/-- The history buffer as it stands after the `setdefault`/`append`/prune-loop
prefix of `register_message`: the stored (and rule-evaluated) buffer. -/
def updatedBuffer (an : Analyzer) (msg : Message) (cfg : GuildSettings) (now : Int)
    (st : DetectorState) (key : Nat × Nat) : HistBuf :=
  let buf0 :=
    match st.history key with
    | some b => b
    | none => { capacity := max (cfg.spam_limit * 2) 20, records := [] }
  let buf1 := appendBounded buf0
    { timestamp := now, content := msg.content, normalized := an.normalize msg.content }
  { buf1 with records := pruneExpired now (cfg.time_window : Int) buf1.records }

/-- `SpamDetector.register_message`: returns the optional `SpamAction` and the
updated detector state. -/
def register_message (an : Analyzer) (msg : Message) (cfg : GuildSettings) (now : Int)
    (st : DetectorState) : Option SpamAction × DetectorState :=
  match msg.guild with
  | none => (none, st)
  | some gid =>
    if !msg.author_is_member then (none, st)
    else
      let key := (gid, msg.author_id)
      let buf := updatedBuffer an msg cfg now st key
      let st1 : DetectorState :=
        { st with history := fun k => if k = key then some buf else st.history k }
      match detect_violation an msg buf.records cfg now with
      | (none, _) => (none, st1)
      | (some reason, forced) =>
        let res := increment decayAfterDefault now st1.tracker key
        let action :=
          match forced with
          | some a => a
          | none => action_for_count res.1
        (some { action := action, reason := reason,
                details := String.mk (msg.content.data.take 200), violation_count := res.1 },
         { st1 with tracker := res.2 })

/-- `SpamDetector.reset_user`. -/
def reset_user (st : DetectorState) (gid uid : Nat) : DetectorState :=
  { st with tracker := reset st.tracker gid uid }

/-- A trivial concrete analyzer used for witnesses/counterexamples. -/
def an0 : Analyzer :=
  { normalize := fun s => s, contains_link := fun _ => false,
    is_similar := fun _ _ _ => false }

/-- The empty detector state. -/
def st0 : DetectorState := { history := fun _ => none, tracker := fun _ => none }

example : strContains "hi @everyone there" "@everyone" = true := by decide
example : strContains "hi there" "@everyone" = false := by decide
example : strCount "a@here b @here" "@here" = 2 := by decide
example : action_for_count 1 = .warn ∧ action_for_count 4 = .kick := by decide

/-- A plain message with no mention content, sent by member 2 of guild 1. -/
def msg1 : Message :=
  { guild := some 1, author_id := 2, author_is_member := true, content := "a",
    mention_everyone := false, mentions_len := 0, role_mentions_len := 0,
    created_at := 0, joined_at := none }

/-- Enabled settings with `spam_limit = 0` (any single message floods). -/
def cfgFlood : GuildSettings :=
  { enabled := true, spam_limit := 0, time_window := 1000, link_block := false,
    mention_limit := 0, new_user_minutes := 0, exception_keywords := [] }

example :
    (register_message an0 msg1 cfgFlood 0 st0).1
      = some ⟨.warn, floodReason, "a", 1⟩ := by decide

/-- One `register_message` call: its settings snapshot, the message and its time. -/
structure Call where
  cfg : GuildSettings
  msg : Message
  now : Int

/-- Run a sequence of `register_message` calls, keeping only the state. -/
def runCalls (an : Analyzer) (calls : List Call) (st : DetectorState) : DetectorState :=
  calls.foldl (fun s c => (register_message an c.msg c.cfg c.now s).2) st

/-- Disabled settings with `spam_limit = 11`: first touch creates a buffer of
capacity `max(22, 20) = 22`. -/
def cfgWide : GuildSettings :=
  { enabled := false, spam_limit := 11, time_window := 1000, link_block := false,
    mention_limit := 0, new_user_minutes := 0, exception_keywords := [] }

/-- Disabled settings with `spam_limit = 1`: the claimed bound would be
`max(2, 20) = 20`. -/
def cfgNarrow : GuildSettings :=
  { enabled := false, spam_limit := 1, time_window := 1000, link_block := false,
    mention_limit := 0, new_user_minutes := 0, exception_keywords := [] }

/-- 22 calls for one key: one creating a capacity-22 buffer, then 21 under the
narrow settings. -/
def cexCalls : List Call :=
  ⟨cfgWide, msg1, 0⟩ :: List.replicate 21 ⟨cfgNarrow, msg1, 0⟩

/-- An analyzer whose similarity test always passes. -/
def anTrue : Analyzer :=
  { normalize := fun s => s, contains_link := fun _ => false,
    is_similar := fun _ _ _ => true }

/-- Four identically-timed records, the newest carrying an exception keyword. -/
def histSim : List MessageRecord :=
  [⟨0, "a", "a"⟩, ⟨0, "a", "a"⟩, ⟨0, "a", "a"⟩, ⟨0, "공지사항", "공지사항"⟩]

/-- Disabled settings snapshot. -/
def cfgDisabled : GuildSettings :=
  { enabled := false, spam_limit := 5, time_window := 1000, link_block := false,
    mention_limit := 0, new_user_minutes := 0, exception_keywords := [] }

example :
    (register_message an0 msg1 cfgDisabled 0 st0).1 = none ∧
    ((register_message an0 msg1 cfgDisabled 0 st0).2.history (1, 2)).map
      (fun b => b.records) = some [⟨0, "a", "a"⟩] := by
  refine ⟨by decide, by decide⟩

/-! ## Helper lemmas -/

/-- In the rule chain, a forced action is produced only by the mass-mention
rule, and that forced action is `timeout`. -/
theorem detect_forced_only_mass (an : Analyzer) (msg : Message)
    (history : List MessageRecord) (cfg : GuildSettings) (now : Int)
    (x : SpamActionType)
    (h2 : (detect_violation an msg history cfg now).2 = some x) :
    (detect_violation an msg history cfg now).1 = some massMentionReason
      ∧ x = SpamActionType.timeout := by
  simp only [detect_violation] at h2 ⊢
  split_ifs at h2 ⊢
  all_goals simp_all

/-- `increment` always returns a count of at least 1. -/
theorem increment_pos (da now : Int) (m : VMap) (key : Nat × Nat) :
    1 ≤ (increment da now m key).1 := by
  simp only [increment]
  omega

/-- `increment` on a key with no record returns 1 and stores a fresh record. -/
theorem increment_of_none (da now : Int) (m : VMap) (key : Nat × Nat)
    (h : m key = none) :
    increment da now m key
      = (1, fun k => if k = key then some ⟨1, now, now⟩ else m k) := by
  simp [increment, h]

/-- `action_for_count` never yields the `none` action. -/
theorem action_for_count_ne_none (n : Nat) : action_for_count n ≠ SpamActionType.none := by
  unfold action_for_count
  split_ifs <;> simp

/-- `action_for_count` is `kick` from 4 on. -/
theorem action_for_count_ge_four (n : Nat) (h : 4 ≤ n) :
    action_for_count n = SpamActionType.kick := by
  unfold action_for_count
  split_ifs with h1 h2 h3
  · omega
  · omega
  · omega
  · rfl

/-! ## C1 -/

/-- C1 counterexample: with `enabled = false`, `register_message` does return
`none`, but the member's history buffer is mutated — the message is appended —
contradicting "performs no state mutation". -/
theorem register_message_disabled_mutates_history :
    (register_message an0 msg1 cfgDisabled 0 st0).1 = none ∧
    (register_message an0 msg1 cfgDisabled 0 st0).2.history (1, 2) ≠ st0.history (1, 2) := by
  exact ⟨by decide, by decide⟩

/-- C1 (amended): with `enabled = false`, `register_message` returns `none` and
the violation tracker is untouched; the history buffer, however, is still
appended to and pruned before detection is bypassed. -/
theorem register_message_disabled_no_detection :
    ∀ (an : Analyzer) (msg : Message) (cfg : GuildSettings) (now : Int) (st : DetectorState),
      cfg.enabled = false →
      (register_message an msg cfg now st).1 = none ∧
      (register_message an msg cfg now st).2.tracker = st.tracker := by
  intro an msg cfg now st h
  cases hg : msg.guild with
  | none => simp [register_message, hg]
  | some gid =>
    by_cases hm : msg.author_is_member
    · simp [register_message, hg, hm, detect_violation, h]
    · simp [register_message, hg, hm]

/-- Witness for the amended C1 at a concrete disabled call. -/
theorem register_message_disabled_no_detection_witness :
    cfgDisabled.enabled = false ∧
    (register_message an0 msg1 cfgDisabled 0 st0).1 = none ∧
    (register_message an0 msg1 cfgDisabled 0 st0).2.tracker = st0.tracker :=
  ⟨by decide,
   (register_message_disabled_no_detection an0 msg1 cfgDisabled 0 st0 (by decide)).1,
   (register_message_disabled_no_detection an0 msg1 cfgDisabled 0 st0 (by decide)).2⟩

/-! ## C2 -/

/-- The rule chain on a mass-mention message: reason is the mass-mention one,
forced action is timeout, regardless of the other rules' conditions. -/
theorem detect_mass (an : Analyzer) (msg : Message) (history : List MessageRecord)
    (cfg : GuildSettings) (now : Int) (he : cfg.enabled = true)
    (hm : massMentionCond msg = true) :
    detect_violation an msg history cfg now
      = (some massMentionReason, some SpamActionType.timeout) := by
  simp [detect_violation, he, hm]

/-- C2: a message that is both a mass mention and a flood (post-prune history
size exceeds `spam_limit`) yields exactly the mass-mention reason with forced
action timeout, never the flood reason. -/
theorem mass_mention_priority :
    ∀ (an : Analyzer) (msg : Message) (cfg : GuildSettings) (now : Int)
      (st : DetectorState) (gid : Nat),
      msg.guild = some gid → msg.author_is_member = true → cfg.enabled = true →
      massMentionCond msg = true →
      cfg.spam_limit < (updatedBuffer an msg cfg now st (gid, msg.author_id)).records.length →
      ∃ a, (register_message an msg cfg now st).1 = some a ∧
        a.reason = massMentionReason ∧ a.action = SpamActionType.timeout ∧
        a.reason ≠ floodReason := by
  intro an msg cfg now st gid hg hm he hmass _
  simp only [register_message, hg, hm, Bool.not_true, Bool.false_eq_true,
    if_false, detect_mass an msg _ cfg now he hmass]
  refine ⟨_, rfl, rfl, rfl, ?_⟩
  show massMentionReason ≠ floodReason
  decide

/-- Witness for C2: `@everyone` in the text while the buffer already floods. -/
theorem mass_mention_priority_witness :
    ∃ a, (register_message an0 { msg1 with content := "hi @everyone" } cfgFlood 0 st0).1
        = some a ∧
      a.reason = massMentionReason ∧ a.action = SpamActionType.timeout ∧
      a.reason ≠ floodReason :=
  mass_mention_priority an0 { msg1 with content := "hi @everyone" } cfgFlood 0 st0 1
    (by decide) (by decide) (by decide) (by decide) (by decide)

/-! ## C3 -/

/-- C3: without a forced override, the returned action is the fixed escalation
of the strike count: 1 → warn, 2 → delete, 3 → timeout, ≥ 4 → kick. -/
theorem escalation_table :
    ∀ (an : Analyzer) (msg : Message) (cfg : GuildSettings) (now : Int)
      (st : DetectorState) (a : SpamAction),
      (register_message an msg cfg now st).1 = some a →
      a.reason ≠ massMentionReason →
      a.action = action_for_count a.violation_count ∧
      action_for_count 1 = SpamActionType.warn ∧
      action_for_count 2 = SpamActionType.delete ∧
      action_for_count 3 = SpamActionType.timeout ∧
      ∀ n, 4 ≤ n → action_for_count n = SpamActionType.kick := by
  intro an msg cfg now st a hsome hmass
  refine ⟨?_, by decide, by decide, by decide, action_for_count_ge_four⟩
  cases hg : msg.guild with
  | none => simp [register_message, hg] at hsome
  | some gid =>
    by_cases hm : msg.author_is_member
    · simp only [register_message, hg, hm, Bool.not_true, Bool.false_eq_true,
        if_false] at hsome
      rcases hd : detect_violation an msg
          (updatedBuffer an msg cfg now st (gid, msg.author_id)).records cfg now
        with ⟨r, f⟩
      rw [hd] at hsome
      cases r with
      | none => simp at hsome
      | some reason =>
        cases f with
        | none =>
          simp only [Option.some.injEq] at hsome
          subst hsome
          rfl
        | some x =>
          have := detect_forced_only_mass an msg _ cfg now x (by rw [hd])
          rw [hd] at this
          simp only [Option.some.injEq] at this
          obtain ⟨hr, hx⟩ := this
          subst hr
          simp only [Option.some.injEq] at hsome
          subst hsome
          exact absurd rfl hmass
    · simp [register_message, hg, hm] at hsome

/-! ## C4 -/

/-- The `increment` algorithm exactly as the spec words it: (1) look up the
record; (2) if present and `elapsed = now - lastDecayCheckAt ≥ decayPeriod`,
subtract `floor(elapsed / decayPeriod)` from the count, floored at 0, and set
`lastDecayCheckAt = now`; (3) if no record exists or the decayed count is ≤ 0,
start a fresh record with count 0; (4) add 1, set `lastTriggeredAt = now`,
store, and return the new count. -/
def incrementSpec (da now : Int) (m : VMap) (key : Nat × Nat) : Nat × VMap :=
  let existing := m key
  let decayed : Option ViolationRecord :=
    existing.map (fun r =>
      let elapsed := now - r.last_decay_check
      if da ≤ elapsed then
        { r with count := ((r.count : Int) - elapsed.fdiv da).toNat,
                 last_decay_check := now }
      else r)
  let base : ViolationRecord :=
    match decayed with
    | none => ⟨0, now, now⟩
    | some r => if r.count ≤ 0 then ⟨0, now, now⟩ else r
  let stored : ViolationRecord :=
    { count := base.count + 1, last_triggered := now,
      last_decay_check := base.last_decay_check }
  (stored.count, fun k => if k = key then some stored else m k)

/-- C4: `ViolationTracker.increment` implements exactly the specified decay /
fresh-record / increment algorithm, for every key, map and call time. -/
theorem increment_matches_spec :
    ∀ (da now : Int) (m : VMap) (key : Nat × Nat),
      increment da now m key = incrementSpec da now m key := by
  intro da now m key
  simp only [increment, incrementSpec, Option.map]
  cases h : m key with
  | none => rfl
  | some r =>
    by_cases hd : da ≤ now - r.last_decay_check
    · have hcount : (max 0 ((r.count : Int) - (now - r.last_decay_check).fdiv da)).toNat
          = ((r.count : Int) - (now - r.last_decay_check).fdiv da).toNat := by
        omega
      simp [hd, hcount, Nat.le_zero]
    · simp [hd, Nat.le_zero]

/-! ## C8 -/

/-- `increment`'s returned count reads the map only at its own key. -/
theorem increment_fst_congr (da now : Int) (m m' : VMap) (key : Nat × Nat)
    (h : m key = m' key) :
    (increment da now m key).1 = (increment da now m' key).1 := by
  simp only [increment, h]

/-- The returned action of `register_message` depends on the tracker only
through the record at the message's own key. -/
theorem register_message_fst_congr (an : Analyzer) (msg : Message)
    (cfg : GuildSettings) (now : Int) (st st' : DetectorState) (gid : Nat)
    (hg : msg.guild = some gid)
    (hh : st.history = st'.history)
    (ht : st.tracker (gid, msg.author_id) = st'.tracker (gid, msg.author_id)) :
    (register_message an msg cfg now st).1 = (register_message an msg cfg now st').1 := by
  simp only [register_message, hg]
  by_cases hm : msg.author_is_member
  · have hbuf : updatedBuffer an msg cfg now st (gid, msg.author_id)
        = updatedBuffer an msg cfg now st' (gid, msg.author_id) := by
      simp [updatedBuffer, hh]
    simp only [hm, Bool.not_true, Bool.false_eq_true, if_false, hbuf]
    rcases detect_violation an msg
        (updatedBuffer an msg cfg now st' (gid, msg.author_id)).records cfg now
      with ⟨r, f⟩
    cases r with
    | none => rfl
    | some reason =>
      have hc : (increment decayAfterDefault now st.tracker (gid, msg.author_id)).1
          = (increment decayAfterDefault now st'.tracker (gid, msg.author_id)).1 :=
        increment_fst_congr _ _ _ _ _ ht
      simp only [hc]
  · simp [hm]

/-- C8: `reset_user` removes the violation record, so the next triggering
message yields strike count 1 and (absent a forced override) action warn —
the same result as from a tracker holding no record at all for that key. -/
theorem reset_then_first_strike :
    ∀ (st : DetectorState) (gid uid : Nat),
      (reset_user st gid uid).tracker (gid, uid) = none ∧
      ∀ (an : Analyzer) (msg : Message) (cfg : GuildSettings) (now : Int) (a : SpamAction),
        msg.guild = some gid → msg.author_id = uid →
        (register_message an msg cfg now (reset_user st gid uid)).1 = some a →
        a.violation_count = 1 ∧
        (a.reason ≠ massMentionReason → a.action = SpamActionType.warn) ∧
        (register_message an msg cfg now (reset_user st gid uid)).1
          = (register_message an msg cfg now
              ⟨(reset_user st gid uid).history, fun _ => none⟩).1 := by
  intro st gid uid
  have hkey : (reset_user st gid uid).tracker (gid, uid) = none := by
    simp [reset_user, reset]
  refine ⟨hkey, ?_⟩
  intro an msg cfg now a hg huid hsome
  have hcongr : (register_message an msg cfg now (reset_user st gid uid)).1
      = (register_message an msg cfg now
          ⟨(reset_user st gid uid).history, fun _ => none⟩).1 := by
    refine register_message_fst_congr an msg cfg now (reset_user st gid uid)
      ⟨(reset_user st gid uid).history, fun _ => none⟩ gid hg rfl ?_
    rw [huid, hkey]
  refine ⟨?_, ?_, hcongr⟩
  all_goals
    cases hgm : msg.guild with
    | none => rw [hgm] at hg; cases hg
    | some gid' =>
      rw [hgm] at hg
      injection hg with hgid
      rw [hgid] at hgm
      by_cases hm : msg.author_is_member
      · simp only [register_message, hgm, hm, Bool.not_true, Bool.false_eq_true,
          if_false] at hsome
        rcases hd : detect_violation an msg
            (updatedBuffer an msg cfg now (reset_user st gid uid) (gid, msg.author_id)).records
            cfg now
          with ⟨r, f⟩
        rw [hd] at hsome
        cases r with
        | none => simp at hsome
        | some reason =>
          have hinc : increment decayAfterDefault now (reset_user st gid uid).tracker
              (gid, msg.author_id)
              = (1, fun k => if k = (gid, msg.author_id)
                    then some ⟨1, now, now⟩
                    else (reset_user st gid uid).tracker k) := by
            apply increment_of_none
            rw [huid]
            exact hkey
          rw [hinc] at hsome
          cases f with
          | none =>
            simp only [Option.some.injEq] at hsome
            subst hsome
            first
            | rfl
            | (intro _; rfl)
          | some x =>
            have hmass := detect_forced_only_mass an msg _ cfg now x (by rw [hd])
            rw [hd] at hmass
            simp only [Option.some.injEq] at hmass
            obtain ⟨hr, hx⟩ := hmass
            subst hr
            subst hx
            simp only [Option.some.injEq] at hsome
            subst hsome
            first
            | rfl
            | (intro hne; exact absurd rfl hne)
      · simp [register_message, hgm, hm] at hsome

/-- Witness for C8: after a reset, a concrete flood gives count 1 and warn. -/
theorem reset_then_first_strike_witness :
    (reset_user st0 1 2).tracker (1, 2) = none ∧
    ((SpamAction.violation_count ⟨.warn, floodReason, "a", 1⟩ = 1) ∧
      (SpamAction.reason ⟨.warn, floodReason, "a", 1⟩ ≠ massMentionReason →
        SpamAction.action ⟨.warn, floodReason, "a", 1⟩ = SpamActionType.warn) ∧
      (register_message an0 msg1 cfgFlood 0 (reset_user st0 1 2)).1
        = (register_message an0 msg1 cfgFlood 0
            ⟨(reset_user st0 1 2).history, fun _ => none⟩).1) :=
  ⟨(reset_then_first_strike st0 1 2).1,
   (reset_then_first_strike st0 1 2).2 an0 msg1 cfgFlood 0
     ⟨.warn, floodReason, "a", 1⟩ rfl rfl (by decide)⟩

/-! ## C9 -/

/-- `action_for_count` always lands in the four real actions. -/
theorem action_for_count_mem (n : Nat) :
    action_for_count n ∈ [SpamActionType.warn, SpamActionType.delete,
      SpamActionType.timeout, SpamActionType.kick] := by
  unfold action_for_count
  split_ifs
  all_goals simp

/-- C9: every returned `SpamAction` has a strike count of at least 1 and one of
the four real action kinds (never `none`); and `increment` keeps every stored
record's count at least 1. -/
theorem spam_action_wellformed :
    (∀ (an : Analyzer) (msg : Message) (cfg : GuildSettings) (now : Int)
       (st : DetectorState) (a : SpamAction),
       (register_message an msg cfg now st).1 = some a →
       1 ≤ a.violation_count ∧
       a.action ∈ [SpamActionType.warn, SpamActionType.delete,
         SpamActionType.timeout, SpamActionType.kick]) ∧
    (∀ (da now : Int) (m : VMap) (key k : Nat × Nat) (r : ViolationRecord),
       (∀ k0 r0, m k0 = some r0 → 1 ≤ r0.count) →
       (increment da now m key).2 k = some r → 1 ≤ r.count) := by
  constructor
  · intro an msg cfg now st a hsome
    cases hg : msg.guild with
    | none => simp [register_message, hg] at hsome
    | some gid =>
      by_cases hm : msg.author_is_member
      · simp only [register_message, hg, hm, Bool.not_true, Bool.false_eq_true,
          if_false] at hsome
        rcases hd : detect_violation an msg
            (updatedBuffer an msg cfg now st (gid, msg.author_id)).records cfg now
          with ⟨r, f⟩
        rw [hd] at hsome
        cases r with
        | none => simp at hsome
        | some reason =>
          cases f with
          | none =>
            simp only [Option.some.injEq] at hsome
            subst hsome
            exact ⟨increment_pos _ _ _ _, action_for_count_mem _⟩
          | some x =>
            have hmass := detect_forced_only_mass an msg _ cfg now x (by rw [hd])
            rw [hd] at hmass
            obtain ⟨-, hx⟩ := hmass
            subst hx
            simp only [Option.some.injEq] at hsome
            subst hsome
            exact ⟨increment_pos _ _ _ _, by simp⟩
      · simp [register_message, hg, hm] at hsome
  · intro da now m key k r hinv h
    simp only [increment] at h
    by_cases hk : k = key
    · subst hk
      rw [if_pos rfl] at h
      injection h with h2
      subst h2
      exact Nat.le_add_left 1 _
    · rw [if_neg hk] at h
      exact hinv k r h

/-- Witness for C9: the concrete flood action and a concrete stored record. -/
theorem spam_action_wellformed_witness :
    (1 ≤ SpamAction.violation_count ⟨.warn, floodReason, "a", 1⟩ ∧
      SpamAction.action ⟨.warn, floodReason, "a", 1⟩ ∈ [SpamActionType.warn,
        SpamActionType.delete, SpamActionType.timeout, SpamActionType.kick]) ∧
    1 ≤ ViolationRecord.count ⟨1, 0, 0⟩ :=
  ⟨spam_action_wellformed.1 an0 msg1 cfgFlood 0 st0 ⟨.warn, floodReason, "a", 1⟩
     (by decide),
   spam_action_wellformed.2 86400 0 (fun _ => none) (1, 2) (1, 2) ⟨1, 0, 0⟩
     (fun k0 r0 h => Option.noConfusion h) (by decide)⟩

/-! ## C10 -/

/-- C10: when the member's joined-at timestamp is absent, the rule chain
behaves exactly as if the member had joined at account creation: the
server-membership age is taken to be the account age, so the new-member
newness test reduces to the account-age check; nothing else changes. -/
theorem joined_at_absent_uses_account_age :
    ∀ (an : Analyzer) (msg : Message) (history : List MessageRecord)
      (cfg : GuildSettings) (now : Int),
      detect_violation an { msg with joined_at := none } history cfg now
        = detect_violation an { msg with joined_at := some msg.created_at } history cfg now := by
  intro an msg history cfg now
  rfl

/-! ## C5 -/

/-- One operation of the history store: append a record, or prune with a time
and a window (the two mutations `register_message` performs on a buffer). -/
inductive HOp where
  | app (r : MessageRecord)
  | prune (now w : Int)
deriving DecidableEq

/-- The record an operation appends, if any. -/
def recOf : HOp → Option MessageRecord
  | .app r => some r
  | .prune _ _ => none

/-- Apply one history-store operation to a buffer. -/
def applyOp (b : HistBuf) : HOp → HistBuf
  | .app r => appendBounded b r
  | .prune now w => { b with records := pruneExpired now w b.records }

/-- Apply a sequence of history-store operations. -/
def applyOps : List HOp → HistBuf → HistBuf
  | [], b => b
  | op :: ops, b => applyOps ops (applyOp b op)

/-- Records in non-decreasing timestamp order. -/
def timeSorted (l : List MessageRecord) : Prop :=
  l.Pairwise (fun a b => a.timestamp ≤ b.timestamp)

instance timeSorted.instDecidable (l : List MessageRecord) : Decidable (timeSorted l) := by
  unfold timeSorted
  infer_instance

/-- Membership after a bounded append: every record comes from the old buffer
or is the appended one. -/
theorem mem_appendBounded {y r : MessageRecord} {b : HistBuf}
    (h : y ∈ (appendBounded b r).records) : y ∈ b.records ∨ y = r := by
  simp only [appendBounded] at h
  split_ifs at h with hc
  · rcases List.mem_append.mp (List.mem_of_mem_drop h) with h1 | h2
    · exact Or.inl h1
    · exact Or.inr (List.mem_singleton.mp h2)
  · rcases List.mem_append.mp h with h1 | h2
    · exact Or.inl h1
    · exact Or.inr (List.mem_singleton.mp h2)

/-- C5: on a buffer in non-decreasing timestamp order, after pruning every
remaining record is within the window; and once a record has been pruned or
evicted (it is absent from the buffer), no sequence of operations that does
not append it again can make it reappear. -/
theorem prune_window_and_no_reappear :
    (∀ (now w : Int) (l : List MessageRecord), timeSorted l →
       ∀ r ∈ pruneExpired now w l, now - r.timestamp ≤ w) ∧
    (∀ (x : MessageRecord) (b : HistBuf) (ops : List HOp),
       x ∉ b.records → (∀ op ∈ ops, recOf op ≠ some x) →
       x ∉ (applyOps ops b).records) := by
  constructor
  · intro now w l
    induction l with
    | nil => intro _ r hr; simp [pruneExpired] at hr
    | cons a t ih =>
      intro hs r hr
      have hst : timeSorted t := (List.pairwise_cons.mp hs).2
      by_cases hp : w < now - a.timestamp
      · rw [pruneExpired, List.dropWhile_cons] at hr
        rw [if_pos (by simpa using hp)] at hr
        exact ih hst r hr
      · rw [pruneExpired, List.dropWhile_cons] at hr
        rw [if_neg (by simpa using hp)] at hr
        rcases List.mem_cons.mp hr with rfl | hrt
        · omega
        · have hts : a.timestamp ≤ r.timestamp := (List.pairwise_cons.mp hs).1 r hrt
          omega
  · intro x b ops
    induction ops generalizing b with
    | nil => intro hx _; exact hx
    | cons op t ih =>
      intro hx hops
      apply ih
      · cases op with
        | app r =>
          intro hmem
          rcases mem_appendBounded hmem with h1 | h2
          · exact hx h1
          · exact hops (.app r) (List.mem_cons_self _ _) (by rw [recOf, h2])
        | prune pnow pw =>
          intro hmem
          exact hx ((List.dropWhile_sublist _).mem hmem)
      · intro op' hop'
        exact hops op' (List.mem_cons_of_mem _ hop')

/-- Witness for C5: a concrete sorted buffer pruned at `now = 10`, window 3,
and a concrete evicted record that never reappears. -/
theorem prune_window_and_no_reappear_witness :
    (∀ r ∈ pruneExpired 10 3 [⟨6, "x", "x"⟩, ⟨9, "y", "y"⟩], (10 : Int) - r.timestamp ≤ 3) ∧
    (⟨0, "z", "z"⟩ : MessageRecord) ∉
      (applyOps [HOp.app ⟨1, "a", "a"⟩, HOp.prune 10 3] ⟨20, []⟩).records :=
  ⟨prune_window_and_no_reappear.1 10 3 [⟨6, "x", "x"⟩, ⟨9, "y", "y"⟩] (by decide),
   prune_window_and_no_reappear.2 ⟨0, "z", "z"⟩ ⟨20, []⟩
     [HOp.app ⟨1, "a", "a"⟩, HOp.prune 10 3] (by decide) (by decide)⟩

/-! ## C6 -/

/-- A bounded append never exceeds the buffer's own capacity. -/
theorem appendBounded_length_le (b : HistBuf) (r : MessageRecord) :
    (appendBounded b r).records.length ≤ b.capacity := by
  simp only [appendBounded]
  split_ifs with hc
  · rw [List.length_drop]
    omega
  · simp only [List.length_append, List.length_singleton] at hc ⊢
    omega

/-- The buffer `register_message` stores is always within its own capacity. -/
theorem updatedBuffer_length_le (an : Analyzer) (msg : Message) (cfg : GuildSettings)
    (now : Int) (st : DetectorState) (key : Nat × Nat) :
    (updatedBuffer an msg cfg now st key).records.length
      ≤ (updatedBuffer an msg cfg now st key).capacity := by
  unfold updatedBuffer
  cases hh : st.history key with
  | none =>
    simp only [hh, pruneExpired]
    exact le_trans ((List.dropWhile_sublist _).length_le) (appendBounded_length_le _ _)
  | some b =>
    simp only [hh, pruneExpired]
    exact le_trans ((List.dropWhile_sublist _).length_le) (appendBounded_length_le _ _)

/-- A buffer created by this call gets its capacity from this call's snapshot:
`max(spam_limit * 2, 20)`. -/
theorem updatedBuffer_capacity_none (an : Analyzer) (msg : Message) (cfg : GuildSettings)
    (now : Int) (st : DetectorState) (key : Nat × Nat) (h : st.history key = none) :
    (updatedBuffer an msg cfg now st key).capacity = max (cfg.spam_limit * 2) 20 := by
  simp only [updatedBuffer, h]
  rfl

/-- An already-existing buffer keeps its capacity: later snapshots' limits are
never re-read. -/
theorem updatedBuffer_capacity_some (an : Analyzer) (msg : Message) (cfg : GuildSettings)
    (now : Int) (st : DetectorState) (key : Nat × Nat) (b0 : HistBuf)
    (h : st.history key = some b0) :
    (updatedBuffer an msg cfg now st key).capacity = b0.capacity := by
  simp only [updatedBuffer, h]
  rfl

/-- After any `register_message` call, the history map is either unchanged or
updated at exactly the message's key with the freshly stored buffer. -/
theorem register_message_history (an : Analyzer) (msg : Message) (cfg : GuildSettings)
    (now : Int) (st : DetectorState) (gid : Nat)
    (hg : msg.guild = some gid) (hm : msg.author_is_member = true) :
    (register_message an msg cfg now st).2.history
      = fun k => if k = (gid, msg.author_id)
          then some (updatedBuffer an msg cfg now st (gid, msg.author_id))
          else st.history k := by
  simp only [register_message, hg, hm, Bool.not_true, Bool.false_eq_true, if_false]
  rcases detect_violation an msg
      (updatedBuffer an msg cfg now st (gid, msg.author_id)).records cfg now
    with ⟨r, f⟩
  cases r with
  | none => rfl
  | some reason => rfl

/-- A call touches `key` when it is a valid member message for exactly that
(guild, author) pair: only such calls read or write the key's buffer. -/
def touches (key : Nat × Nat) (c : Call) : Bool :=
  match c.msg.guild with
  | none => false
  | some gid => c.msg.author_is_member && decide ((gid, c.msg.author_id) = key)

/-- A call that does not touch `key` leaves the key's buffer untouched. -/
theorem register_message_untouched (an : Analyzer) (c : Call) (st : DetectorState)
    (key : Nat × Nat) (ht : touches key c = false) :
    (register_message an c.msg c.cfg c.now st).2.history key = st.history key := by
  cases hg : c.msg.guild with
  | none => simp [register_message, hg]
  | some gid =>
    by_cases hm : c.msg.author_is_member
    · simp only [touches, hg, hm, Bool.true_and, decide_eq_false_iff_not] at ht
      have hne : ¬ key = (gid, c.msg.author_id) := fun hkey => ht hkey.symm
      rw [register_message_history an c.msg c.cfg c.now st gid hg hm]
      simp [hne]
    · have hm' : c.msg.author_is_member = false := by simpa using hm
      simp [register_message, hg, hm']

/-- A call that touches `key` stores exactly the appended-and-pruned buffer. -/
theorem register_message_touched (an : Analyzer) (c : Call) (st : DetectorState)
    (key : Nat × Nat) (ht : touches key c = true) :
    (register_message an c.msg c.cfg c.now st).2.history key
      = some (updatedBuffer an c.msg c.cfg c.now st key) := by
  cases hg : c.msg.guild with
  | none => simp [touches, hg] at ht
  | some gid =>
    by_cases hm : c.msg.author_is_member
    · simp only [touches, hg, hm, Bool.true_and, decide_eq_true_eq] at ht
      subst ht
      rw [register_message_history an c.msg c.cfg c.now st gid hg hm]
      simp
    · have hm' : c.msg.author_is_member = false := by simpa using hm
      simp [touches, hg, hm'] at ht

/-- Once a key's buffer exists with capacity `C` and is within it, any further
sequence of calls — with arbitrary, possibly different settings snapshots —
keeps it at capacity `C` and within `C`. -/
theorem runCalls_capacity_persist (an : Analyzer) (key : Nat × Nat) (C : Nat) :
    ∀ (calls : List Call) (st : DetectorState),
      (∃ b0, st.history key = some b0 ∧ b0.capacity = C ∧ b0.records.length ≤ C) →
      ∀ b, (runCalls an calls st).history key = some b →
        b.capacity = C ∧ b.records.length ≤ C := by
  intro calls
  induction calls with
  | nil =>
    intro st h b hb
    obtain ⟨b0, h0, hc, hl⟩ := h
    simp only [runCalls, List.foldl_nil] at hb
    rw [h0] at hb
    injection hb with hb
    subst hb
    exact ⟨hc, hl⟩
  | cons c t ih =>
    intro st h b hb
    obtain ⟨b0, h0, hc, hl⟩ := h
    simp only [runCalls, List.foldl_cons] at hb
    apply ih ((register_message an c.msg c.cfg c.now st).2) ?_ b hb
    by_cases ht : touches key c = true
    · refine ⟨updatedBuffer an c.msg c.cfg c.now st key,
        register_message_touched an c st key ht, ?_, ?_⟩
      · rw [updatedBuffer_capacity_some an c.msg c.cfg c.now st key b0 h0]
        exact hc
      · have := updatedBuffer_length_le an c.msg c.cfg c.now st key
        rw [updatedBuffer_capacity_some an c.msg c.cfg c.now st key b0 h0, hc] at this
        exact this
    · have ht' : touches key c = false := by simpa using ht
      exact ⟨b0, by rw [register_message_untouched an c st key ht']; exact h0, hc, hl⟩

set_option maxRecDepth 4000 in
/-- C6 counterexample: one key, 22 calls. The first call (spam_limit 11)
creates the deque with capacity `max(22, 20) = 22`; the next 21 calls carry
spam_limit 1, whose claimed bound is `max(2, 20) = 20` — yet the buffer ends
holding 22 records, because the capacity is fixed at creation and never
re-read from later settings snapshots. -/
theorem capacity_claim_counterexample :
    ((runCalls an0 cexCalls st0).history (1, 2)).map (fun b => b.records.length)
        = some 22 ∧
    max (2 * cfgNarrow.spam_limit) 20 < 22 :=
  ⟨by decide, by decide⟩

/-- C6 (amended): starting from a state where the key has no buffer, after any
sequence of calls — each with its own settings snapshot, limits free to differ —
the buffer, if present, has capacity `max(2×spamLimit0, 20)` and never holds
more records than that, where `spamLimit0` is the `spam_limit` of the first
call that touches the key (the call whose `setdefault` created the deque); on
overflow the oldest record is evicted first. -/
theorem capacity_bound_from_creation :
    (∀ (an : Analyzer) (key : Nat × Nat) (calls : List Call) (st : DetectorState)
       (b : HistBuf),
       st.history key = none →
       (runCalls an calls st).history key = some b →
       ∃ c0, calls.find? (touches key) = some c0 ∧
         b.capacity = max (2 * c0.cfg.spam_limit) 20 ∧
         b.records.length ≤ max (2 * c0.cfg.spam_limit) 20) ∧
    (∀ (b : HistBuf) (r : MessageRecord),
       b.records.length = b.capacity → 0 < b.capacity →
       (appendBounded b r).records = b.records.tail ++ [r]) := by
  constructor
  · intro an key calls
    induction calls with
    | nil =>
      intro st b hnone hb
      simp only [runCalls, List.foldl_nil] at hb
      rw [hnone] at hb
      cases hb
    | cons c t ih =>
      intro st b hnone hb
      simp only [runCalls, List.foldl_cons] at hb
      by_cases ht : touches key c = true
      · have hstore : (register_message an c.msg c.cfg c.now st).2.history key
            = some (updatedBuffer an c.msg c.cfg c.now st key) :=
          register_message_touched an c st key ht
        have hcap : (updatedBuffer an c.msg c.cfg c.now st key).capacity
            = max (c.cfg.spam_limit * 2) 20 :=
          updatedBuffer_capacity_none an c.msg c.cfg c.now st key hnone
        have hlen : (updatedBuffer an c.msg c.cfg c.now st key).records.length
            ≤ max (c.cfg.spam_limit * 2) 20 := by
          have := updatedBuffer_length_le an c.msg c.cfg c.now st key
          rw [hcap] at this
          exact this
        have hpers := runCalls_capacity_persist an key (max (c.cfg.spam_limit * 2) 20) t
          ((register_message an c.msg c.cfg c.now st).2)
          ⟨updatedBuffer an c.msg c.cfg c.now st key, hstore, hcap, hlen⟩ b hb
        refine ⟨c, ?_, ?_, ?_⟩
        · rw [List.find?_cons_of_pos _ ht]
        · have := hpers.1
          omega
        · have := hpers.2
          omega
      · have ht' : touches key c = false := by simpa using ht
        have hun : (register_message an c.msg c.cfg c.now st).2.history key = none := by
          rw [register_message_untouched an c st key ht']
          exact hnone
        obtain ⟨c0, hfind, hcap, hlen⟩ :=
          ih ((register_message an c.msg c.cfg c.now st).2) b hun hb
        refine ⟨c0, ?_, hcap, hlen⟩
        rw [List.find?_cons_of_neg _ (by simp [ht'])]
        exact hfind
  · intro b r hlen hpos
    cases hb : b.records with
    | nil =>
      rw [hb] at hlen
      simp only [List.length_nil] at hlen
      omega
    | cons a t =>
      have hlen' : t.length + 1 = b.capacity := by
        rw [hb] at hlen
        simpa using hlen
      simp only [appendBounded, hb, List.cons_append]
      split_ifs with hc
      · have h1 : (a :: (t ++ [r])).length - b.capacity = 1 := by
          simp only [List.length_cons, List.length_append, List.length_nil,
            List.length_singleton]
          omega
        rw [h1]
        rfl
      · exfalso
        simp only [List.length_cons, List.length_append, List.length_nil,
          List.length_singleton] at hc
        omega

/-- Witness for the amended C6: a mixed-limit two-call sequence (limits 11 then
1) for one key — capacity and size are bounded by the creating call's
`max(2*11, 20) = 22` — and a full capacity-1 buffer evicts its head on append. -/
theorem capacity_bound_from_creation_witness :
    (∃ c0, ([⟨cfgWide, msg1, 0⟩, ⟨cfgNarrow, msg1, 0⟩] : List Call).find? (touches (1, 2))
          = some c0 ∧
        HistBuf.capacity ⟨22, [⟨0, "a", "a"⟩, ⟨0, "a", "a"⟩]⟩
          = max (2 * c0.cfg.spam_limit) 20 ∧
        (HistBuf.records ⟨22, [⟨0, "a", "a"⟩, ⟨0, "a", "a"⟩]⟩).length
          ≤ max (2 * c0.cfg.spam_limit) 20) ∧
    (appendBounded ⟨1, [⟨0, "a", "a"⟩]⟩ ⟨1, "b", "b"⟩).records
      = ([⟨0, "a", "a"⟩] : List MessageRecord).tail ++ [⟨1, "b", "b"⟩] :=
  ⟨capacity_bound_from_creation.1 an0 (1, 2) [⟨cfgWide, msg1, 0⟩, ⟨cfgNarrow, msg1, 0⟩]
     st0 ⟨22, [⟨0, "a", "a"⟩, ⟨0, "a", "a"⟩]⟩ (by decide) (by decide),
   capacity_bound_from_creation.2 ⟨1, [⟨0, "a", "a"⟩]⟩ ⟨1, "b", "b"⟩
     (by decide) (by decide)⟩

/-! ## C7 -/

/-- Rule (e)'s matcher, as the spec words it: among the 4 most recent messages
(the newest plus up to 3 preceding, viewed newest-first), the number of the
preceding 3 whose normalized content is ≥ 0.85-similar to the newest. -/
def specNearDupHits (an : Analyzer) (h : List MessageRecord) : Nat :=
  match h.reverse with
  | [] => 0
  | newest :: preceding =>
    ((preceding.take 3).filter
      (fun r => an.is_similar newest.normalized r.normalized (17/20))).length

theorem take4_tail (l : List MessageRecord) : (l.take 4).tail = l.tail.take 3 := by
  cases l <;> rfl

/-- `_has_ai_like_similarity` fires exactly when the history holds ≥ 4 records
and ≥ 2 of the 3 preceding records match the newest at threshold 0.85. -/
theorem has_ai_like_iff (an : Analyzer) (h : List MessageRecord) :
    has_ai_like_similarity an h = true ↔ 4 ≤ h.length ∧ 2 ≤ specNearDupHits an h := by
  unfold has_ai_like_similarity specNearDupHits
  by_cases hl : h.length < 4
  · rw [if_pos hl]
    simp only [Bool.false_eq_true, false_iff, not_and]
    intro h4
    omega
  · rw [if_neg hl]
    cases hrev : h.reverse with
    | nil =>
      exfalso
      apply hl
      have hnil : h = [] := by
        have := congrArg List.reverse hrev
        simpa using this
      simp [hnil]
    | cons newest preceding =>
      have hlast : (lastN 4 h).getLast? = some newest := by
        rw [lastN, List.getLast?_reverse, hrev]
        rfl
      have hdrop : (lastN 4 h).dropLast = (preceding.take 3).reverse := by
        rw [lastN, List.dropLast_reverse, take4_tail, hrev]
        rfl
      simp only [hlast, hdrop, decide_eq_true_eq, List.countP_eq_length_filter,
        List.filter_reverse, List.length_reverse]
      constructor
      · intro h2
        refine ⟨by omega, ?_⟩
        exact h2
      · rintro ⟨-, h2⟩
        exact h2

/-- C7: the near-duplicate ("AI-like") rule triggers exactly when no exception
keyword occurs case-insensitively in the content, the post-prune history holds
at least 4 records, and the newest record matches at least 2 of the 3
preceding ones at similarity ≥ 0.85; with an exception keyword present the
rule chain can never produce the near-duplicate reason. -/
theorem near_duplicate_rule :
    ∀ (an : Analyzer) (content : String) (kws : List String) (h : List MessageRecord),
      ((!is_ai_exempt content kws && has_ai_like_similarity an h) = true ↔
        (is_ai_exempt content kws = false ∧ 4 ≤ h.length ∧ 2 ≤ specNearDupHits an h)) ∧
      (is_ai_exempt content kws = true →
        ∀ (msg : Message) (cfg : GuildSettings) (now : Int),
          msg.content = content → cfg.exception_keywords = kws →
          (detect_violation an msg h cfg now).1 ≠ some aiReason) := by
  intro an content kws h
  constructor
  · rw [Bool.and_eq_true, Bool.not_eq_true', has_ai_like_iff]
  · intro hex msg cfg now hc hk
    subst hc
    subst hk
    simp only [detect_violation]
    split_ifs with h1 h2 h3 h4 h5 h6 h7 h8
    all_goals first
      | decide
      | simp_all

/-- Witness for C7 with an always-similar analyzer: the exception keyword
suppresses the rule even though every record is maximally similar. -/
theorem near_duplicate_rule_witness :
    (((!is_ai_exempt "공지사항" ["공지"]
        && has_ai_like_similarity anTrue histSim) = true) ↔
      (is_ai_exempt "공지사항" ["공지"] = false ∧ 4 ≤ histSim.length ∧
        2 ≤ specNearDupHits anTrue histSim)) ∧
    (detect_violation anTrue { msg1 with content := "공지사항" } histSim
        { cfgFlood with spam_limit := 9, exception_keywords := ["공지"] } 0).1
      ≠ some aiReason :=
  ⟨(near_duplicate_rule anTrue "공지사항" ["공지"] histSim).1,
   (near_duplicate_rule anTrue "공지사항" ["공지"] histSim).2 (by decide)
     { msg1 with content := "공지사항" }
     { cfgFlood with spam_limit := 9, exception_keywords := ["공지"] } 0 rfl rfl⟩

/-- Witness for C3 at a concrete flood giving strike count 1 and warn. -/
theorem escalation_table_witness :
    (SpamAction.action ⟨.warn, floodReason, "a", 1⟩
        = action_for_count (SpamAction.violation_count ⟨.warn, floodReason, "a", 1⟩)) ∧
      action_for_count 1 = SpamActionType.warn ∧
      action_for_count 2 = SpamActionType.delete ∧
      action_for_count 3 = SpamActionType.timeout ∧
      ∀ n, 4 ≤ n → action_for_count n = SpamActionType.kick :=
  escalation_table an0 msg1 cfgFlood 0 st0 ⟨.warn, floodReason, "a", 1⟩
    (by decide) (by decide)

end GearX
